import Mathlib

/-!
Verification of the verus_app_backend record pipeline.

This development shallowly embeds the document/applicant services of the
repository: the record data model (`Document`, `Applicant`), the record
assemblers (`createDocumentObject`, `createApplicantObject`), the service
control flows (`uploadDocumentFlow`, `getDocumentFlow`, `updateDocumentFlow`,
`createApplicantController`, `updateDocumentController`), the cache-key codec,
and a small operational model of the cache-coherent read/write protocol
(`SysState`, `getStep`, `writeStep`, `runOps`).

The repository delegates its envelope-encryption and cache primitives to the
external `verus_backend_core` module, whose sources are not part of this
repository; those primitives (`GenerateCacheKey`, the `CacheWrapper` /
`InvalidateCache` gate semantics, `EncryptField` / `DecryptField`, and the
enumeration parsers) are modelled from the specification, as marked in their
doc comments.  Everything else is translated directly from the Go sources.

Go `time.Time` values are modelled as natural numbers read from a monotone
clock; each call of `time.Now()` consumes one clock value.  Go byte slices are
modelled as lists of bytes (`ZMod 256`).  Fallible Go functions returning
`(value, error)` pairs are modelled with `Except` or with an explicit
`value × Option error` pair when the source inspects both components.
-/

/-! ### Bytes and the field cipher (spec-modelled, §4.1–§4.2) -/

/-- A single byte. -/
abbrev Byte := ZMod 256

/-- A Go byte slice. -/
abbrev Bytes := List Byte

/-- Modelled from the spec: the keystream of the symmetric cipher used by
`verus_backend_core`'s `utils.EncryptField`, whose source is not in this
repository.  The cipher is a counter-mode stream cipher: the exact keystream
function is opaque to the spec, so a concrete stand-in keyed by the data key,
the per-encryption nonce and the byte position is used. -/
def keystream (k nonce : Bytes) (i : Nat) : Byte :=
  k.sum + nonce.sum + (i : Byte)

/-- Counter-mode encryption of a plaintext starting at byte position `i`. -/
def ctrEncrypt (k nonce : Bytes) : Nat → Bytes → Bytes
  | _, [] => []
  | i, b :: bs => (b + keystream k nonce i) :: ctrEncrypt k nonce (i + 1) bs

/-- Counter-mode decryption, the positionwise inverse of `ctrEncrypt`. -/
def ctrDecrypt (k nonce : Bytes) : Nat → Bytes → Bytes
  | _, [] => []
  | i, b :: bs => (b - keystream k nonce i) :: ctrDecrypt k nonce (i + 1) bs

/-- Modelled from the spec: the authentication tag attached to an encrypted
field, recomputed on decryption; a mismatch yields `DecryptionError` (§4.2). -/
def authTag (k nonce ct : Bytes) : Byte :=
  3 * k.sum + 5 * nonce.sum + 7 * ct.sum

/-- An encrypted sensitive field value: nonce, ciphertext and tag (§3). -/
structure EncryptedField where
  nonce : Bytes
  ct : Bytes
  tag : Byte
deriving DecidableEq, Repr

/-- Error raised when an encrypted field fails to decrypt (§4.2, §7). -/
inductive CryptoError
  | decryptionError
deriving DecidableEq, Repr

/-- Modelled from the spec: `utils.EncryptField` of `verus_backend_core`
(§4.2).  Encryption is randomized through the caller-supplied `nonce`. -/
def EncryptField (v k nonce : Bytes) : EncryptedField :=
  let c := ctrEncrypt k nonce 0 v
  ⟨nonce, c, authTag k nonce c⟩

/-- Modelled from the spec: `utils.DecryptField` of `verus_backend_core`
(§4.2); exact inverse for the same data key, `DecryptionError` on a tag
mismatch. -/
def DecryptField (ef : EncryptedField) (k : Bytes) : Except CryptoError Bytes :=
  if ef.tag = authTag k ef.nonce ef.ct then
    Except.ok (ctrDecrypt k ef.nonce 0 ef.ct)
  else
    Except.error CryptoError.decryptionError

theorem ctrDecrypt_ctrEncrypt (k nonce : Bytes) :
    ∀ (i : Nat) (v : Bytes), ctrDecrypt k nonce i (ctrEncrypt k nonce i v) = v := by
  intro i v
  induction v generalizing i with
  | nil => rfl
  | cons b bs ih =>
    simp [ctrEncrypt, ctrDecrypt, ih]

/-! ### The record data model (§3)

`models.Document` and `models.Applicant` are declared in `verus_backend_core`;
their field sets are reproduced from the literal record constructions in this
repository (`createDocumentObject`, `createApplicantObject`) and from the
repository's tests. -/

/-- Modelled from the spec: the closed document-status enumeration of
`verus_backend_core` (§3, §4.6).  The repository's sources name
`DocumentUploaded`; the spec's status-transition scenario names `Uploaded` and
`Verified`.  The first constructor is the Go zero value. -/
inductive DocumentStatus
  | uploaded
  | verified
  | rejected
deriving DecidableEq, Repr

/-- Modelled from the spec: the closed document-type enumeration of
`verus_backend_core` (§3, §9).  The repository's tests name
`DocumentPassport` and `DocumentUtilityBill`.  The first constructor is the
Go zero value. -/
inductive DocumentType
  | passport
  | utilityBill
deriving DecidableEq, Repr

/-- A document record, after `models.Document`. -/
structure Document where
  documentID : String
  applicantID : String
  documentType : DocumentType
  country : String
  fileURL : String
  fileSize : Nat
  status : DocumentStatus
  createdAt : Nat
  updatedAt : Nat
  deleted : Bool
  deletedAt : Option Nat
  deletedBy : Option String
deriving DecidableEq, Repr

/-- The Go zero value of `models.Document`, returned by `GetDocument` when the
projection's `documents` array is empty. -/
def zeroDocument : Document :=
  { documentID := ""
    applicantID := ""
    documentType := DocumentType.passport
    country := ""
    fileURL := ""
    fileSize := 0
    status := DocumentStatus.uploaded
    createdAt := 0
    updatedAt := 0
    deleted := false
    deletedAt := none
    deletedBy := none }

/-- A raw postal address, after `models.RawAddress`. -/
structure RawAddress where
  line1 : String
  line2 : String
  city : String
  region : String
  postalCode : String
  country : String
deriving DecidableEq, Repr

/-- Field-by-field encryption of an address, after `utils.EncryptAddress` of
`verus_backend_core`: each sensitive field is encrypted independently (§4.3).
The per-field nonces are supplied by the caller. -/
structure EncryptedAddress where
  line1 : EncryptedField
  line2 : EncryptedField
  city : EncryptedField
  region : EncryptedField
  postalCode : EncryptedField
  country : EncryptedField
deriving DecidableEq, Repr

/-- Modelled from the spec: `utils.EncryptAddress` of `verus_backend_core`,
encrypting each address field independently with the same data key (§4.3). -/
def EncryptAddress (a : RawAddress) (k : Bytes) (n1 n2 n3 n4 n5 n6 : Bytes)
    (enc : String → Bytes) : EncryptedAddress :=
  { line1 := EncryptField (enc a.line1) k n1
    line2 := EncryptField (enc a.line2) k n2
    city := EncryptField (enc a.city) k n3
    region := EncryptField (enc a.region) k n4
    postalCode := EncryptField (enc a.postalCode) k n5
    country := EncryptField (enc a.country) k n6 }

/-- Encrypted sensitive data of an applicant, after `models.EncryptedData`:
the encrypted DOB and address together with the wrapped (KMS-encrypted) data
key (§3). -/
structure EncryptedData where
  dob : EncryptedField
  address : EncryptedAddress
  encryptedKey : Bytes
deriving DecidableEq, Repr

/-- Opaque stand-in for `models_sumsub.Applicant`, an external model the
repository stores but never inspects. -/
structure SumsubApplicant where
deriving DecidableEq, Repr

/-- An applicant record, after `models.Applicant`, with the field set used by
`createApplicantObject`. -/
structure Applicant where
  applicantID : String
  firstName : String
  middleName : String
  lastName : String
  email : String
  phone : String
  clientID : String
  encryptedData : EncryptedData
  createdAt : Nat
  updatedAt : Nat
  deleted : Bool
  deletedAt : Option Nat
  deletedBy : Option String
  documents : List Document
  sumsubApplicant : SumsubApplicant
  verificationLevel : String
deriving DecidableEq, Repr

/-! ### Enumeration parsers (spec-modelled, §3, §9) -/

/-- A client-input validation error (§7). -/
inductive ValidationError
  | invalidDocumentType
  | invalidDocumentStatus
deriving DecidableEq, Repr

/-- Modelled from the spec: `models.ParseDocumentType` of
`verus_backend_core`.  Per §9 the source parses the open string and on unknown
input silently defaults, returning the zero enumeration value together with an
error; the result mirrors Go's `(DocumentType, error)` pair. -/
def parseDocumentType (s : String) : DocumentType × Option ValidationError :=
  if s = "passport" then (DocumentType.passport, none)
  else if s = "utility_bill" then (DocumentType.utilityBill, none)
  else (DocumentType.passport, some ValidationError.invalidDocumentType)

/-- Modelled from the spec: `models.ParseDocumentStatus` of
`verus_backend_core`, mirroring Go's `(DocumentStatus, error)` pair; the
document controller rejects the request when the error component is set. -/
def parseDocumentStatus (s : String) : DocumentStatus × Option ValidationError :=
  if s = "uploaded" then (DocumentStatus.uploaded, none)
  else if s = "verified" then (DocumentStatus.verified, none)
  else if s = "rejected" then (DocumentStatus.rejected, none)
  else (DocumentStatus.uploaded, some ValidationError.invalidDocumentStatus)

/-! ### Record assemblers (from the source) -/

/-- Embeds `createDocumentObject` (document service source): assembles a fresh
document record.  `now` stands for the single `time.Now()` call and `freshId`
for `uuid.New().String()`.  The `ParseDocumentType` error is discarded by the
source (`document_type, _ := models.ParseDocumentType(documentType)`). -/
def createDocumentObject (applicantID documentType country : String)
    (now : Nat) (freshId : String) : Document :=
  let document_type := (parseDocumentType documentType).1
  { documentID := freshId
    applicantID := applicantID
    documentType := document_type
    country := country
    fileURL := "placeholder"
    fileSize := 0
    status := DocumentStatus.uploaded
    createdAt := now
    updatedAt := now
    deleted := false
    deletedAt := none
    deletedBy := none }

/-- Embeds `createApplicantObject` (applicant controller source): assembles a fresh
applicant record.  The source calls `time.Now()` twice — once for `CreatedAt`
and once for `UpdatedAt` — so the two stamps are distinct clock reads `t1` and
`t2`; `freshId` stands for `uuid.New().String()`. -/
def createApplicantObject (firstName middleName lastName email phone level : String)
    (encryptedData : EncryptedData) (t1 t2 : Nat) (freshId : String) : Applicant :=
  { applicantID := freshId
    firstName := firstName
    middleName := middleName
    lastName := lastName
    email := email
    phone := phone
    clientID := "placeholder"
    encryptedData := encryptedData
    createdAt := t1
    updatedAt := t2
    deleted := false
    deletedAt := none
    deletedBy := none
    documents := []
    sumsubApplicant := {}
    verificationLevel := level }

/-! ### Cache-key codec (§4.4)

The query filters built by the repository are `bson.M` maps from field names
to string or boolean values.  A filter is embedded as a list of key/value
pairs; two lists that are permutations of each other denote the same map. -/

/-- A `bson.M` filter value as used by this repository: a string or a
boolean. -/
inductive FVal
  | str (s : String)
  | bool (b : Bool)
deriving DecidableEq, Repr

/-- A `bson.M` query filter. -/
abbrev QFilter := List (String × FVal)

/-- Constructor rank of a filter value, for canonical ordering. -/
def FVal.rank : FVal → Nat
  | .str _ => 0
  | .bool _ => 1

/-- String payload of a filter value, for canonical ordering. -/
def FVal.payload : FVal → String
  | .str s => s
  | .bool b => if b then "true" else "false"

theorem FVal.rank_payload_inj : ∀ {v w : FVal},
    v.rank = w.rank → v.payload = w.payload → v = w := by
  intro v w hr hp
  cases v <;> cases w <;> simp [FVal.rank, FVal.payload] at hr hp ⊢
  · exact hp
  · rename_i b b'
    cases b <;> cases b' <;> simp_all

theorem char_toNat_inj {c d : Char} (h : c.toNat = d.toNat) : c = d :=
  Char.eq_of_val_eq (UInt32.eq_of_toBitVec_eq (BitVec.eq_of_toNat_eq h))

/-- Numeric code of a filter entry — the field name's length and code points,
then the value's constructor rank and payload code points.  The length prefix
makes the code injective. -/
def pairCode (p : String × FVal) : List Nat :=
  p.1.length :: (p.1.data.map Char.toNat ++ p.2.rank :: p.2.payload.data.map Char.toNat)

/-- Lexicographic comparison of numeric codes. -/
def natListLeB : List Nat → List Nat → Bool
  | [], _ => true
  | _ :: _, [] => false
  | a :: as, b :: bs =>
    if a < b then true else if b < a then false else natListLeB as bs

theorem natListLeB_total : ∀ l m : List Nat, natListLeB l m = true ∨ natListLeB m l = true
  | [], _ => Or.inl rfl
  | _ :: _, [] => Or.inr rfl
  | a :: as, b :: bs => by
    rcases Nat.lt_trichotomy a b with h | h | h
    · left
      simp [natListLeB, h]
    · subst h
      rcases natListLeB_total as bs with ih | ih <;>
        simp [natListLeB, Nat.lt_irrefl, ih]
    · right
      simp [natListLeB, h]

theorem natListLeB_trans : ∀ {l m n : List Nat},
    natListLeB l m = true → natListLeB m n = true → natListLeB l n = true
  | [], _, _, _, _ => rfl
  | _ :: _, [], _, h, _ => by simp [natListLeB] at h
  | _ :: _, _ :: _, [], _, h => by simp [natListLeB] at h
  | a :: as, b :: bs, c :: cs, h1, h2 => by
    simp only [natListLeB] at h1 h2 ⊢
    by_cases hab : a < b
    · by_cases hbc : b < c
      · simp [Nat.lt_trans hab hbc]
      · by_cases hcb : c < b
        · simp [natListLeB, hab, hbc, hcb] at h2
        · have hbc' : b = c := Nat.le_antisymm (Nat.le_of_not_lt hcb) (Nat.le_of_not_lt hbc)
          subst hbc'
          simp [hab]
    · by_cases hba : b < a
      · simp [hab, hba] at h1
      · have hab' : a = b := Nat.le_antisymm (Nat.le_of_not_lt hba) (Nat.le_of_not_lt hab)
        subst hab'
        simp only [Nat.lt_irrefl, if_false] at h1
        by_cases hbc : a < c
        · simp [hbc]
        · by_cases hcb : c < a
          · simp [hbc, hcb] at h2
          · simp only [Nat.lt_irrefl, if_false, hbc, hcb] at h1 h2 ⊢
            exact natListLeB_trans h1 h2

theorem natListLeB_antisymm : ∀ {l m : List Nat},
    natListLeB l m = true → natListLeB m l = true → l = m
  | [], [], _, _ => rfl
  | [], _ :: _, _, h => by simp [natListLeB] at h
  | _ :: _, [], h, _ => by simp [natListLeB] at h
  | a :: as, b :: bs, h1, h2 => by
    simp only [natListLeB] at h1 h2
    by_cases hab : a < b
    · simp [hab, Nat.lt_asymm hab] at h2
    · by_cases hba : b < a
      · simp [hab, hba] at h1
      · have hab' : a = b := Nat.le_antisymm (Nat.le_of_not_lt hba) (Nat.le_of_not_lt hab)
        subst hab'
        simp only [Nat.lt_irrefl, if_false] at h1 h2
        rw [natListLeB_antisymm h1 h2]

theorem pairCode_inj {p q : String × FVal} (h : pairCode p = pairCode q) : p = q := by
  unfold pairCode at h
  obtain ⟨hlen, htail⟩ := List.cons.inj h
  have hmaplen : (p.1.data.map Char.toNat).length = (q.1.data.map Char.toNat).length := by
    simp only [List.length_map]
    exact hlen
  obtain ⟨hname, hrest⟩ := List.append_inj htail hmaplen
  obtain ⟨hrank, hpayload⟩ := List.cons.inj hrest
  have hinj : Function.Injective Char.toNat := fun _ _ hc => char_toNat_inj hc
  have hname' : p.1.data = q.1.data := List.map_injective_iff.mpr hinj hname
  have h1 : p.1 = q.1 := String.toList_inj.mp hname'
  have hpayload' : p.2.payload.data = q.2.payload.data :=
    List.map_injective_iff.mpr hinj hpayload
  have h2 : p.2 = q.2 :=
    FVal.rank_payload_inj hrank (String.toList_inj.mp hpayload')
  exact Prod.ext h1 h2

/-- The canonical order on filter entries: lexicographic comparison of the
entries' numeric codes. -/
def pairLe (p q : String × FVal) : Prop :=
  natListLeB (pairCode p) (pairCode q) = true

instance : DecidableRel pairLe := fun p q =>
  inferInstanceAs (Decidable (natListLeB (pairCode p) (pairCode q) = true))

instance : IsTotal (String × FVal) pairLe :=
  ⟨fun p q => natListLeB_total (pairCode p) (pairCode q)⟩

instance : IsTrans (String × FVal) pairLe :=
  ⟨fun _ _ _ h1 h2 => natListLeB_trans h1 h2⟩

instance : IsAntisymm (String × FVal) pairLe :=
  ⟨fun _ _ h1 h2 => pairCode_inj (natListLeB_antisymm h1 h2)⟩

/-- Modelled from the spec: canonicalization of a filter (§4.4, glossary) — a
stable, order-independent serialization order, obtained by sorting the
entries by their canonical sort key. -/
def canonFilter (f : QFilter) : QFilter :=
  List.insertionSort pairLe f

/-- Textual form of one canonical filter entry. -/
def serializeEntry (p : String × FVal) : String :=
  p.1 ++ "=" ++ p.2.rank.repr ++ ":" ++ p.2.payload ++ ";"

/-- Modelled from the spec: the canonical serialization of a filter hashed
into the cache key by `common.GenerateCacheKey` (§4.4).  The hash itself is
opaque; the canonical serialization string stands in for it, preserving the
determinism and canonicalization contract. -/
def GenerateCacheKey (collectionName : String) (filter : QFilter) : String :=
  collectionName ++ "|" ++ String.join ((canonFilter filter).map serializeEntry)

/-- The document query filter built by `GenerateFilterAndCacheKey` in the
document service source: `{"applicant_id": applicantID, "deleted": false,
"documents.document_id": docID}`. -/
def docFilter (applicantID docID : String) : QFilter :=
  [("applicant_id", FVal.str applicantID),
   ("deleted", FVal.bool false),
   ("documents.document_id", FVal.str docID)]

/-- The applicant query filter built by `GenerateFilterAndCacheKey` in the
applicant service source: `{"applicant_id": applicantID, "client_id":
clientID, "deleted": false}`. -/
def applicantFilter (applicantID clientID : String) : QFilter :=
  [("applicant_id", FVal.str applicantID),
   ("client_id", FVal.str clientID),
   ("deleted", FVal.bool false)]

theorem canonFilter_perm (f : QFilter) : (canonFilter f).Perm f :=
  List.perm_insertionSort pairLe f

theorem canonFilter_eq_of_perm {f g : QFilter} (h : f.Perm g) :
    canonFilter f = canonFilter g :=
  List.eq_of_perm_of_sorted
    (((canonFilter_perm f).trans h).trans (canonFilter_perm g).symm)
    (List.sorted_insertionSort pairLe f)
    (List.sorted_insertionSort pairLe g)

/-- The canonical document cache key is injective in the document id: two
document filters for the same applicant collide only on equal ids. -/
theorem docKey_inj {aID d d' : String}
    (h : canonFilter (docFilter aID d) = canonFilter (docFilter aID d')) : d = d' := by
  have hp : (docFilter aID d).Perm (docFilter aID d') :=
    ((canonFilter_perm (docFilter aID d)).symm.trans (by rw [h])).trans
      (canonFilter_perm (docFilter aID d'))
  have hm : ("documents.document_id", FVal.str d) ∈ docFilter aID d' :=
    hp.mem_iff.mp (by simp [docFilter])
  simp [docFilter] at hm
  exact hm

/-! ### Service control flows (from the source)

The document and applicant services run against external collaborators (the
Mongo collection, the S3 uploader, the KMS key provider, the cache wrapper).
Each collaborator call's outcome is a parameter of the flow, and each flow
returns its result together with the list of authoritative-store side effects
it issued, in order. -/

/-- An authoritative-store side effect issued by a service flow. -/
inductive Effect
  | storeInsert
  | storeUpdate
  | cacheWrapperCall
deriving DecidableEq, Repr

/-- The error outcomes a service flow can surface. -/
inductive ServiceError
  | unsupportedMime
  | missingField (name : String)
  | upload
  | keyDerivation
  | keyProvider
  | clientID
  | store
  | validation (e : ValidationError)
  | notFound
deriving DecidableEq, Repr

/-- The `mimeTypeToExtension` map of the document service source. -/
def mimeTypeToExtension (mimeType : String) : Option String :=
  if mimeType = "application/pdf" then some ".pdf"
  else if mimeType = "image/jpeg" then some ".jpeg"
  else if mimeType = "image/png" then some ".png"
  else none

/-- Embeds `GetFileExtension` (document service source).  The fallback through
`mime.ExtensionsByType` for MIME types outside the map is modelled as failure;
`UploadDocument` only reaches this call after the map-membership check, so the
fallback is unreachable from the flows below. -/
def GetFileExtension (mimeType : String) : Except ServiceError String :=
  match mimeTypeToExtension mimeType with
  | some ext => Except.ok ext
  | none => Except.error ServiceError.unsupportedMime

/-- Embeds `DocumentServiceImpl.UploadDocument` (document service source), from the
MIME-type check onward.  `uploadResult` is the S3 `UploadFile` outcome,
`updateResult` the Mongo `UpdateOne` outcome inside `CreateDocument`; `now`
and `freshId` feed `createDocumentObject`.  `CreateDocument` logs and reports
a failed insert over HTTP but `UploadDocument` still returns the document with
a nil error, so the flow's result does not depend on `updateResult`. -/
def uploadDocumentFlow (mimeType applicantID documentType country : String)
    (uploadResult : Except ServiceError String) (now : Nat) (freshId : String)
    (updateResult : Except ServiceError Unit) : Except ServiceError Document × List Effect :=
  if mimeType = "" then (Except.error ServiceError.unsupportedMime, [])
  else if (mimeTypeToExtension mimeType).isNone then
    (Except.error ServiceError.unsupportedMime, [])
  else
    match GetFileExtension mimeType with
    | Except.error e => (Except.error e, [])
    | Except.ok _ =>
      if applicantID = "" then (Except.error (ServiceError.missingField "applicant_id"), [])
      else if documentType = "" then (Except.error (ServiceError.missingField "document_type"), [])
      else if country = "" then (Except.error (ServiceError.missingField "country"), [])
      else
        let doc := createDocumentObject applicantID documentType country now freshId
        match uploadResult with
        | Except.error _ => (Except.error ServiceError.upload, [])
        | Except.ok fileURL =>
          let doc := { doc with fileURL := fileURL }
          match updateResult with
          | _ => (Except.ok doc, [Effect.storeUpdate])

/-- Embeds `DocumentServiceImpl.GetDocument` (document service source).  `keyResult`
is the `GenerateFilterAndCacheKey` outcome (its only failure source is
`common.GenerateCacheKey`); `cacheResult` is the outcome `common.CacheWrapper`
deposits in the projection result, a list of documents from
`{"documents": {"$elemMatch": {"document_id": docID}}}`.  On a key-derivation
error the source returns the error; the cache wrapper is never invoked. -/
def getDocumentFlow (keyResult : Except ServiceError String)
    (cacheResult : Except ServiceError (List Document)) :
    Except ServiceError Document × List Effect :=
  match keyResult with
  | Except.error e => (Except.error e, [])
  | Except.ok _ =>
    match cacheResult with
    | Except.error e => (Except.error e, [Effect.cacheWrapperCall])
    | Except.ok docs =>
      match docs with
      | d :: _ => (Except.ok d, [Effect.cacheWrapperCall])
      | [] => (Except.ok zeroDocument, [Effect.cacheWrapperCall])

/-- Embeds `DocumentServiceImpl.UpdateDocument` (document service source).
`keyResult` is the `GenerateFilterAndCacheKey` outcome, `invalidateResult` the
`common.InvalidateCache` outcome (store mutation plus cache drop), and
`getResult` the subsequent fresh `GetDocument` outcome.  On a key-derivation
error the source returns the error before any store interaction. -/
def updateDocumentFlow (keyResult : Except ServiceError String)
    (invalidateResult : Except ServiceError Unit)
    (getResult : Except ServiceError Document) :
    Except ServiceError Document × List Effect :=
  match keyResult with
  | Except.error e => (Except.error e, [])
  | Except.ok _ =>
    match invalidateResult with
    | Except.error e => (Except.error e, [Effect.storeUpdate])
    | Except.ok _ =>
      match getResult with
      | Except.error e => (Except.error e, [Effect.storeUpdate, Effect.cacheWrapperCall])
      | Except.ok d => (Except.ok d, [Effect.storeUpdate, Effect.cacheWrapperCall])

/-- The document controller's `UpdateDocument` handler: parses the request's
status string with `models.ParseDocumentStatus` and rejects the request before
calling the service when the parse reports an error. -/
def updateDocumentController (statusStr : String)
    (keyResult : Except ServiceError String)
    (invalidateResult : Except ServiceError Unit)
    (getResult : Except ServiceError Document) :
    Except ServiceError Document × List Effect :=
  match (parseDocumentStatus statusStr).2 with
  | some e => (Except.error (ServiceError.validation e), [])
  | none => updateDocumentFlow keyResult invalidateResult getResult

/-- The raw input bound by the applicant controller's `CreateApplicant`. -/
structure ApplicantInput where
  firstName : String
  middleName : String
  lastName : String
  email : String
  phone : String
  address : RawAddress
  dob : String
  level : String
deriving DecidableEq, Repr

/-- String-to-bytes conversion standing in for Go's `[]byte(s)`. -/
def strBytes (s : String) : Bytes :=
  s.data.map (fun c => (c.toNat : Byte))

/-- The applicant controller's `CreateApplicant` handler composed with
`ApplicantServiceImpl.CreateApplicant`, from the KMS `GenerateDataKey` call
onward.  `keygen` is the KMS outcome (plaintext and wrapped data key);
`nonces` supplies the randomness of the six address-field encryptions and the
DOB encryption; `clientIDResult` is `utils.GetClientIDFromContext`;
`insertResult` is the Mongo `InsertOne` outcome.  The effect list records the
`InsertOne` calls issued. -/
def createApplicantController (keygen : Except ServiceError (Bytes × Bytes))
    (input : ApplicantInput) (dobNonce : Bytes)
    (n1 n2 n3 n4 n5 n6 : Bytes) (t1 t2 : Nat) (freshId : String)
    (clientIDResult : Except ServiceError String)
    (insertResult : Except ServiceError Unit) :
    Except ServiceError Applicant × List Effect :=
  match keygen with
  | Except.error _ => (Except.error ServiceError.keyProvider, [])
  | Except.ok (plaintextKey, encryptedKey) =>
    let encryptedDOB := EncryptField (strBytes input.dob) plaintextKey dobNonce
    let encryptedAddress := EncryptAddress input.address plaintextKey n1 n2 n3 n4 n5 n6 strBytes
    let encryptedData : EncryptedData :=
      { dob := encryptedDOB, address := encryptedAddress, encryptedKey := encryptedKey }
    let applicant := createApplicantObject input.firstName input.middleName input.lastName
      input.email input.phone input.level encryptedData t1 t2 freshId
    match clientIDResult with
    | Except.error e => (Except.error e, [])
    | Except.ok clientIDStr =>
      let applicant := { applicant with clientID := clientIDStr }
      match insertResult with
      | Except.error _ => (Except.error ServiceError.store, [Effect.storeInsert])
      | Except.ok _ => (Except.ok applicant, [Effect.storeInsert])

/-! ### Authoritative-store update semantics (§6)

The store is MongoDB; per the §6 collaborator contract, `UpdateOne` with a
positional `$set` atomically updates the first array element matched by the
filter's array condition in the first document matched by the filter. -/

/-- The `{"$set": {"documents.$.status": status, "documents.$.updated_at":
now}}` update of `UpdateDocument`, applied to the documents array: the first
element whose `document_id` matches is given the new status and timestamp. -/
def setStatusFirst (docID : String) (st : DocumentStatus) (t : Nat) :
    List Document → List Document
  | [] => []
  | d :: ds =>
    if d.documentID = docID then { d with status := st, updatedAt := t } :: ds
    else d :: setStatusFirst docID st t ds

/-- Whether `docFilter applicantID docID` matches the applicant record. -/
def docFilterMatch (a : Applicant) (applicantID docID : String) : Prop :=
  a.applicantID = applicantID ∧ a.deleted = false ∧
    ∃ d ∈ a.documents, d.documentID = docID

instance (a : Applicant) (applicantID docID : String) :
    Decidable (docFilterMatch a applicantID docID) := by
  unfold docFilterMatch
  infer_instance

/-- Embeds `UpdateOne` with `docFilter` and the positional update of
`UpdateDocument`: a no-op when the filter matches no record. -/
def applyStatusUpdate (a : Applicant) (applicantID docID : String)
    (st : DocumentStatus) (t : Nat) : Applicant :=
  if docFilterMatch a applicantID docID then
    { a with documents := setStatusFirst docID st t a.documents }
  else a

/-- The `FindOne` + `$elemMatch` projection of `GetDocument`: the first
document of the matched applicant whose `document_id` equals `docID`, or
`none` when the filter matches no record. -/
def docQuery (a : Applicant) (applicantID docID : String) : Option Document :=
  if a.applicantID = applicantID ∧ a.deleted = false then
    a.documents.find? (fun d => d.documentID = docID)
  else none

/-- A top-level `$set` field update as issued by `UpdateApplicant`, whose
update document copies arbitrary client-supplied fields; the constructors
cover the fields the embedding needs. -/
inductive FieldUpd
  | firstName (s : String)
  | lastName (s : String)
  | email (s : String)
  | deleted (b : Bool)
  | documents (l : List Document)
deriving DecidableEq, Repr

/-- Application of one top-level `$set` field. -/
def applyFieldUpd (a : Applicant) : FieldUpd → Applicant
  | .firstName s => { a with firstName := s }
  | .lastName s => { a with lastName := s }
  | .email s => { a with email := s }
  | .deleted b => { a with deleted := b }
  | .documents l => { a with documents := l }

/-! ### The ConsistencyGate operational model (spec-modelled, §4.5)

`common.CacheWrapper` and `common.InvalidateCache` live in
`verus_backend_core`; their state machine is modelled from §4.5: `Get` is
cache-first and populates on a miss from a successful store query; `Write`
mutates the store first and then synchronously drops the written key's cache
entry.  The model runs the document service over a store holding one
applicant record; cache entries are keyed by the canonical filter that
`GenerateCacheKey` hashes, so equal canonical filters share an entry.  The
trace model is sequential: each operation runs to completion before the next
(single-flight concurrency is outside the embedding). -/

/-- The system state: the authoritative record, the cache contents keyed by
canonical filter, and the monotone clock supplying `time.Now()`. -/
structure SysState where
  store : Applicant
  cache : QFilter → Option (List Document)
  clock : Nat

/-- The cache key (canonical filter) of a document read or write. -/
def docKey (applicantID docID : String) : QFilter :=
  canonFilter (docFilter applicantID docID)

/-- Embeds `GetDocument` through the gate: on a cached entry, return its projection
(first element of the cached documents array, the Go zero value abstracted to
`none` when the array is empty); on a miss, query the store, populate the
entry on success and return the fresh projection. -/
def getStep (applicantID : String) (s : SysState) (docID : String) :
    SysState × Option Document :=
  match s.cache (docKey applicantID docID) with
  | some docs => (s, docs.head?)
  | none =>
    match docQuery s.store applicantID docID with
    | some d =>
      ({ s with cache := fun k => if k = docKey applicantID docID then some [d] else s.cache k },
        some d)
    | none => (s, none)

/-- Embeds the write half of `UpdateDocument` through the gate: the positional status
update against the store, then the synchronous drop of the written key's
cache entry, consuming one clock value for `documents.$.updated_at`. -/
def writeStep (applicantID : String) (s : SysState) (docID : String)
    (st : DocumentStatus) : SysState :=
  { store := applyStatusUpdate s.store applicantID docID st s.clock
    cache := fun k => if k = docKey applicantID docID then none else s.cache k
    clock := s.clock + 1 }

/-- Embeds `UpdateDocument` (document service source): write then a fresh
`GetDocument` on the same key, whose result is returned to the caller. -/
def updateDocumentModel (applicantID : String) (s : SysState) (docID : String)
    (st : DocumentStatus) : SysState × Option Document :=
  getStep applicantID (writeStep applicantID s docID st) docID

/-- Embeds the write half of `UpdateApplicant` (applicant service source): the top-level
`$set` of the client-supplied fields plus `updated_at`, guarded by
`applicantFilter`, then the synchronous drop of the applicant-level cache
key.  Document-level cache keys are left untouched. -/
def applicantWriteStep (applicantID clientID : String) (s : SysState)
    (upds : List FieldUpd) : SysState :=
  let filterOk := s.store.applicantID = applicantID ∧ s.store.clientID = clientID ∧
    s.store.deleted = false
  { store :=
      if filterOk then
        { (upds.foldl applyFieldUpd s.store) with updatedAt := s.clock }
      else s.store
    cache := fun k => if k = canonFilter (applicantFilter applicantID clientID) then none
      else s.cache k
    clock := s.clock + 1 }

/-- Embeds `GetApplicant` (applicant service source): a direct `FindOne` against the
store, bypassing the cache. -/
def getApplicantModel (applicantID clientID : String) (s : SysState) : Option Applicant :=
  if s.store.applicantID = applicantID ∧ s.store.clientID = clientID ∧
      s.store.deleted = false then
    some s.store
  else none

/-- Embeds `UpdateApplicant` (applicant service source): write then invalidate the
applicant-level key, then a fresh direct `GetApplicant`. -/
def updateApplicantModel (applicantID clientID : String) (s : SysState)
    (upds : List FieldUpd) : SysState × Option Applicant :=
  let s' := applicantWriteStep applicantID clientID s upds
  (s', getApplicantModel applicantID clientID s')

/-- A document-path operation of the trace model. -/
inductive DocOp
  | get (docID : String)
  | write (docID : String) (st : DocumentStatus)

/-- One trace step. -/
def stepOp (applicantID : String) (s : SysState) : DocOp → SysState
  | .get d => (getStep applicantID s d).1
  | .write d st => writeStep applicantID s d st

/-- Running a trace of document-path operations. -/
def runOps (applicantID : String) (s : SysState) (ops : List DocOp) : SysState :=
  ops.foldl (stepOp applicantID) s

/-! ### Invariants of the gate model -/

/-- Every stored timestamp was read from the clock in the past. -/
def TimesLT (s : SysState) : Prop :=
  ∀ d ∈ s.store.documents, d.updatedAt < s.clock

/-- Cache coherence: every populated document-key entry holds exactly the
current store projection for that key. -/
def CacheCoh (applicantID : String) (s : SysState) : Prop :=
  ∀ docID, s.cache (docKey applicantID docID) = none ∨
    ∃ x, docQuery s.store applicantID docID = some x ∧
      s.cache (docKey applicantID docID) = some [x]

/-- The gate model's state invariant. -/
def WF (applicantID : String) (s : SysState) : Prop :=
  TimesLT s ∧ CacheCoh applicantID s

/-- The record state for key `(applicantID, docID)` is at least as fresh as
time `t`: the clock has passed `t` and any matching stored document carries a
timestamp of at least `t`. -/
def FreshSince (applicantID docID : String) (t : Nat) (s : SysState) : Prop :=
  t < s.clock ∧ ∀ x, docQuery s.store applicantID docID = some x → t ≤ x.updatedAt

theorem find?_setStatusFirst_ne (docID d' : String) (st : DocumentStatus) (t : Nat)
    (h : d' ≠ docID) : ∀ l : List Document,
    (setStatusFirst docID st t l).find? (fun d => d.documentID = d') =
      l.find? (fun d => d.documentID = d')
  | [] => rfl
  | d :: ds => by
    have hdn : ¬ docID = d' := fun hc => h hc.symm
    by_cases hd : d.documentID = docID
    · have hne : ¬ d.documentID = d' := fun hc => h (hc.symm.trans hd)
      simp [setStatusFirst, hd, List.find?, hne, hdn]
    · simp only [setStatusFirst, if_neg hd]
      by_cases hd' : d.documentID = d'
      · simp [List.find?, hd']
      · simp [List.find?, hd', find?_setStatusFirst_ne docID d' st t h ds]

theorem find?_setStatusFirst_self (docID : String) (st : DocumentStatus) (t : Nat) :
    ∀ l : List Document,
    (setStatusFirst docID st t l).find? (fun d => d.documentID = docID) =
      (l.find? (fun d => d.documentID = docID)).map
        (fun x => { x with status := st, updatedAt := t })
  | [] => rfl
  | d :: ds => by
    by_cases hd : d.documentID = docID
    · simp [setStatusFirst, hd, List.find?]
    · simp [setStatusFirst, hd, List.find?, find?_setStatusFirst_self docID st t ds]

theorem mem_setStatusFirst {x : Document} (docID : String) (st : DocumentStatus) (t : Nat) :
    ∀ {l : List Document}, x ∈ setStatusFirst docID st t l →
      (∃ y ∈ l, x = { y with status := st, updatedAt := t }) ∨ x ∈ l
  | [], hx => absurd hx (by simp [setStatusFirst])
  | d :: ds, hx => by
    by_cases hd : d.documentID = docID
    · simp only [setStatusFirst, if_pos hd, List.mem_cons] at hx
      rcases hx with hx | hx
      · exact Or.inl ⟨d, List.mem_cons_self d ds, hx⟩
      · exact Or.inr (List.mem_cons_of_mem d hx)
    · simp only [setStatusFirst, if_neg hd, List.mem_cons] at hx
      rcases hx with hx | hx
      · exact Or.inr (hx ▸ List.mem_cons_self d ds)
      · rcases mem_setStatusFirst docID st t hx with ⟨y, hy, hxy⟩ | hx'
        · exact Or.inl ⟨y, List.mem_cons_of_mem d hy, hxy⟩
        · exact Or.inr (List.mem_cons_of_mem d hx')

theorem docQuery_applyStatusUpdate_self (a : Applicant) (applicantID docID : String)
    (st : DocumentStatus) (t : Nat) :
    docQuery (applyStatusUpdate a applicantID docID st t) applicantID docID =
      (docQuery a applicantID docID).map (fun x => { x with status := st, updatedAt := t }) := by
  by_cases h1 : a.applicantID = applicantID
  · by_cases h2 : a.deleted = false
    · by_cases h3 : ∃ d ∈ a.documents, d.documentID = docID
      · have hm : docFilterMatch a applicantID docID := ⟨h1, h2, h3⟩
        simp [applyStatusUpdate, hm, docQuery, h1, h2, find?_setStatusFirst_self]
      · have hm : ¬ docFilterMatch a applicantID docID := fun hc => h3 hc.2.2
        have hnone : a.documents.find? (fun d => d.documentID = docID) = none := by
          rw [List.find?_eq_none]
          intro x hx
          simp only [decide_eq_true_eq]
          exact fun hc => h3 ⟨x, hx, hc⟩
        simp [applyStatusUpdate, hm, docQuery, h1, h2, hnone]
    · have hm : ¬ docFilterMatch a applicantID docID := fun hc => h2 hc.2.1
      simp [applyStatusUpdate, hm, docQuery, h2]
  · have hm : ¬ docFilterMatch a applicantID docID := fun hc => h1 hc.1
    simp [applyStatusUpdate, hm, docQuery, h1]

theorem docQuery_applyStatusUpdate_ne (a : Applicant) (applicantID docID d' : String)
    (st : DocumentStatus) (t : Nat) (h : d' ≠ docID) :
    docQuery (applyStatusUpdate a applicantID docID st t) applicantID d' =
      docQuery a applicantID d' := by
  by_cases hm : docFilterMatch a applicantID docID
  · by_cases h1 : a.applicantID = applicantID
    · by_cases h2 : a.deleted = false
      · simp [applyStatusUpdate, hm, docQuery, h1, h2,
          find?_setStatusFirst_ne docID d' st t h]
      · simp [applyStatusUpdate, hm, docQuery, h2]
    · simp [applyStatusUpdate, hm, docQuery, h1]
  · simp [applyStatusUpdate, hm]

theorem timesLT_getStep (applicantID : String) (s : SysState) (docID : String)
    (h : TimesLT s) : TimesLT (getStep applicantID s docID).1 := by
  unfold getStep
  cases hc : s.cache (docKey applicantID docID) with
  | some docs => exact h
  | none =>
    cases hq : docQuery s.store applicantID docID with
    | some d => exact h
    | none => exact h

theorem timesLT_writeStep (applicantID : String) (s : SysState) (docID : String)
    (st : DocumentStatus) (h : TimesLT s) : TimesLT (writeStep applicantID s docID st) := by
  intro d hd
  unfold writeStep at hd
  simp only at hd
  unfold applyStatusUpdate at hd
  by_cases hm : docFilterMatch s.store applicantID docID
  · rw [if_pos hm] at hd
    simp only at hd
    rcases mem_setStatusFirst docID st s.clock hd with ⟨y, hy, hxy⟩ | hd'
    · subst hxy
      exact Nat.lt_succ_self s.clock
    · exact Nat.lt_succ_of_lt (h d hd')
  · rw [if_neg hm] at hd
    exact Nat.lt_succ_of_lt (h d hd)

theorem cacheCoh_getStep (applicantID : String) (s : SysState) (docID : String)
    (h : CacheCoh applicantID s) : CacheCoh applicantID (getStep applicantID s docID).1 := by
  unfold getStep
  cases hc : s.cache (docKey applicantID docID) with
  | some docs => exact h
  | none =>
    cases hq : docQuery s.store applicantID docID with
    | none => exact h
    | some d =>
      intro dID
      simp only
      by_cases hk : docKey applicantID dID = docKey applicantID docID
      · have : dID = docID := docKey_inj hk
        subst this
        rw [if_pos hk]
        exact Or.inr ⟨d, hq, rfl⟩
      · rw [if_neg hk]
        exact h dID

theorem cacheCoh_writeStep (applicantID : String) (s : SysState) (docID : String)
    (st : DocumentStatus) (h : CacheCoh applicantID s) :
    CacheCoh applicantID (writeStep applicantID s docID st) := by
  intro dID
  unfold writeStep
  simp only
  by_cases hk : docKey applicantID dID = docKey applicantID docID
  · rw [if_pos hk]
    exact Or.inl rfl
  · rw [if_neg hk]
    have hne : dID ≠ docID := fun hc => hk (hc ▸ rfl)
    rcases h dID with h0 | ⟨x, hx, hcx⟩
    · exact Or.inl h0
    · refine Or.inr ⟨x, ?_, hcx⟩
      rw [docQuery_applyStatusUpdate_ne s.store applicantID docID dID st s.clock hne]
      exact hx

theorem wf_stepOp (applicantID : String) (s : SysState) (op : DocOp)
    (h : WF applicantID s) : WF applicantID (stepOp applicantID s op) := by
  cases op with
  | get d => exact ⟨timesLT_getStep applicantID s d h.1, cacheCoh_getStep applicantID s d h.2⟩
  | write d st =>
    exact ⟨timesLT_writeStep applicantID s d st h.1, cacheCoh_writeStep applicantID s d st h.2⟩

theorem wf_runOps (applicantID : String) (s : SysState) (ops : List DocOp)
    (h : WF applicantID s) : WF applicantID (runOps applicantID s ops) := by
  induction ops generalizing s with
  | nil => exact h
  | cons op ops ih => exact ih (stepOp applicantID s op) (wf_stepOp applicantID s op h)

theorem freshSince_getStep (applicantID docID : String) (t : Nat) (s : SysState)
    (d' : String) (h : FreshSince applicantID docID t s) :
    FreshSince applicantID docID t (getStep applicantID s d').1 := by
  unfold getStep
  cases hc : s.cache (docKey applicantID d') with
  | some docs => exact h
  | none =>
    cases hq : docQuery s.store applicantID d' with
    | some d => exact h
    | none => exact h

theorem freshSince_writeStep (applicantID docID : String) (t : Nat) (s : SysState)
    (d' : String) (st : DocumentStatus) (h : FreshSince applicantID docID t s) :
    FreshSince applicantID docID t (writeStep applicantID s d' st) := by
  refine ⟨Nat.lt_succ_of_lt h.1, ?_⟩
  intro x hx
  unfold writeStep at hx
  simp only at hx
  by_cases hd : docID = d'
  · subst hd
    rw [docQuery_applyStatusUpdate_self] at hx
    cases hq : docQuery s.store applicantID docID with
    | none => rw [hq] at hx; exact absurd hx (by simp)
    | some y =>
      rw [hq, Option.map_some'] at hx
      have hyx := Option.some.inj hx
      rw [← hyx]
      exact Nat.le_of_lt h.1
  · rw [docQuery_applyStatusUpdate_ne s.store applicantID d' docID st s.clock hd] at hx
    exact h.2 x hx

theorem freshSince_stepOp (applicantID docID : String) (t : Nat) (s : SysState)
    (op : DocOp) (h : FreshSince applicantID docID t s) :
    FreshSince applicantID docID t (stepOp applicantID s op) := by
  cases op with
  | get d => exact freshSince_getStep applicantID docID t s d h
  | write d st => exact freshSince_writeStep applicantID docID t s d st h

theorem freshSince_runOps (applicantID docID : String) (t : Nat) (s : SysState)
    (ops : List DocOp) (h : FreshSince applicantID docID t s) :
    FreshSince applicantID docID t (runOps applicantID s ops) := by
  induction ops generalizing s with
  | nil => exact h
  | cons op ops ih =>
    exact ih (stepOp applicantID s op) (freshSince_stepOp applicantID docID t s op h)

theorem freshSince_of_writeStep_self (applicantID docID : String) (s : SysState)
    (st : DocumentStatus) :
    FreshSince applicantID docID s.clock (writeStep applicantID s docID st) := by
  refine ⟨Nat.lt_succ_self s.clock, ?_⟩
  intro x hx
  unfold writeStep at hx
  simp only at hx
  rw [docQuery_applyStatusUpdate_self] at hx
  cases hq : docQuery s.store applicantID docID with
  | none => rw [hq] at hx; exact absurd hx (by simp)
  | some y =>
    rw [hq, Option.map_some'] at hx
    have hyx := Option.some.inj hx
    rw [← hyx]

theorem getStep_fresh (applicantID docID : String) (t : Nat) (s : SysState)
    (doc : Document) (hcoh : CacheCoh applicantID s)
    (hf : FreshSince applicantID docID t s)
    (hget : (getStep applicantID s docID).2 = some doc) : t ≤ doc.updatedAt := by
  unfold getStep at hget
  cases hc : s.cache (docKey applicantID docID) with
  | some docs =>
    rw [hc] at hget
    simp only at hget
    rcases hcoh docID with h0 | ⟨x, hx, hcx⟩
    · rw [h0] at hc; exact absurd hc (by simp)
    · rw [hcx] at hc
      have hdx : docs = [x] := (Option.some.inj hc).symm
      subst hdx
      simp only [List.head?] at hget
      have : x = doc := by injection hget
      subst this
      exact hf.2 x hx
  | none =>
    rw [hc] at hget
    cases hq : docQuery s.store applicantID docID with
    | some d =>
      rw [hq] at hget
      simp only at hget
      have : d = doc := by injection hget
      subst this
      exact hf.2 d hq
    | none => rw [hq] at hget; exact absurd hget (by simp)

/-! ### Shared concrete sample data for witnesses and counterexamples -/

/-- A concrete stored document used by witnesses and counterexamples. -/
def sampleDocument : Document :=
  { documentID := "doc-1"
    applicantID := "app-1"
    documentType := DocumentType.passport
    country := "US"
    fileURL := "https://bucket/doc-1.pdf"
    fileSize := 2048
    status := DocumentStatus.uploaded
    createdAt := 0
    updatedAt := 0
    deleted := false
    deletedAt := none
    deletedBy := none }

/-- A concrete raw address. -/
def sampleRawAddress : RawAddress :=
  { line1 := "1 Main St", line2 := "", city := "Springfield", region := "IL"
    postalCode := "62701", country := "US" }

/-- Concrete encrypted sensitive data. -/
def sampleEncryptedData : EncryptedData :=
  { dob := EncryptField (strBytes "1990-01-01") [1, 2] [3]
    address := EncryptAddress sampleRawAddress [1, 2] [4] [5] [6] [7] [8] [9] strBytes
    encryptedKey := [10] }

/-- A concrete stored applicant holding `sampleDocument`. -/
def sampleApplicant : Applicant :=
  { applicantID := "app-1"
    firstName := "F"
    middleName := "M"
    lastName := "L"
    email := "f@example.com"
    phone := "555"
    clientID := "client-1"
    encryptedData := sampleEncryptedData
    createdAt := 0
    updatedAt := 0
    deleted := false
    deletedAt := none
    deletedBy := none
    documents := [sampleDocument]
    sumsubApplicant := {}
    verificationLevel := "basic" }

/-- A concrete gate state: `sampleApplicant` in the store, empty cache, clock
at 5. -/
def sampleState : SysState :=
  { store := sampleApplicant, cache := fun _ => none, clock := 5 }

/-! ### The claims -/

/-- C7: for all supported sensitive-field values `v` and every data key `k`,
decrypting the encryption of `v` under `k` with the same key returns exactly
`v`, even though encryption is randomized (through the nonce). -/
theorem c7_field_cipher_roundtrip (v k nonce : Bytes) :
    DecryptField (EncryptField v k nonce) k = Except.ok v := by
  unfold EncryptField DecryptField
  simp [ctrDecrypt_ctrEncrypt]

/-- C5: cache-key derivation is a pure, deterministic function of the
canonical filter — two filters holding the same key/value pairs in any order
produce the identical cache-key string. -/
theorem c5_cache_key_order_independent (collectionName : String) (f1 f2 : QFilter)
    (h : f1.Perm f2) :
    GenerateCacheKey collectionName f1 = GenerateCacheKey collectionName f2 := by
  unfold GenerateCacheKey
  rw [canonFilter_eq_of_perm h]

/-- Witness for C5 at a concrete reordered filter. -/
theorem c5_witness :
    GenerateCacheKey "applicants"
        [("applicant_id", FVal.str "app-1"), ("deleted", FVal.bool false)] =
      GenerateCacheKey "applicants"
        [("deleted", FVal.bool false), ("applicant_id", FVal.str "app-1")] :=
  c5_cache_key_order_independent "applicants"
    [("applicant_id", FVal.str "app-1"), ("deleted", FVal.bool false)]
    [("deleted", FVal.bool false), ("applicant_id", FVal.str "app-1")]
    (by decide)

/-- C3: if the KMS `GenerateDataKey` call fails during applicant creation,
the creation fails with a key-provider error and no `InsertOne` is issued. -/
theorem c3_keygen_failure_no_insert (e : ServiceError) (input : ApplicantInput)
    (dobNonce n1 n2 n3 n4 n5 n6 : Bytes) (t1 t2 : Nat) (freshId : String)
    (clientIDResult : Except ServiceError String)
    (insertResult : Except ServiceError Unit) :
    createApplicantController (Except.error e) input dobNonce n1 n2 n3 n4 n5 n6
        t1 t2 freshId clientIDResult insertResult =
      (Except.error ServiceError.keyProvider, []) := rfl

/-- C10: when the store query succeeds but the projected documents array is
empty, `GetDocument` returns the zero-value document with a nil error —
indistinguishable from a successful read of a record that happens to equal
the zero value. -/
theorem c10_missing_document_zero_value (key : String) :
    (getDocumentFlow (Except.ok key) (Except.ok [])).1 = Except.ok zeroDocument ∧
    (getDocumentFlow (Except.ok key) (Except.ok [])).1 =
      (getDocumentFlow (Except.ok key) (Except.ok [zeroDocument])).1 :=
  ⟨rfl, rfl⟩

/-- C6 counterexample: with key derivation failing and the authoritative
store holding `sampleDocument`, `GetDocument` fails and issues no store
interaction instead of bypassing the cache and returning the authoritative
result. -/
theorem c6_counterexample :
    (getDocumentFlow (Except.error ServiceError.keyDerivation)
        (Except.ok [sampleDocument])).1 = Except.error ServiceError.keyDerivation ∧
    (getDocumentFlow (Except.error ServiceError.keyDerivation)
        (Except.ok [sampleDocument])).2 = [] ∧
    (getDocumentFlow (Except.error ServiceError.keyDerivation)
        (Except.ok [sampleDocument])).1 ≠ Except.ok sampleDocument :=
  ⟨rfl, rfl, fun h => Except.noConfusion h⟩

/-- C6 (amended): when cache-key derivation fails, `GetDocument` and
`UpdateDocument` fail with that error and interact with neither the cache nor
the authoritative store — there is no cache-bypass fallback. -/
theorem c6_amended_key_derivation_error_fails (e : ServiceError) :
    (∀ cacheResult, getDocumentFlow (Except.error e) cacheResult =
      (Except.error e, [])) ∧
    (∀ invalidateResult getResult,
      updateDocumentFlow (Except.error e) invalidateResult getResult =
        (Except.error e, [])) :=
  ⟨fun _ => rfl, fun _ _ => rfl⟩

/-- C4 counterexample: an upload naming the document type
`"not-a-document-type"`, which is outside the closed enumeration (the parse
reports an error), is not rejected: the parse error is discarded, the upload
succeeds, and one store write is issued. -/
theorem c4_counterexample :
    (parseDocumentType "not-a-document-type").2 = some ValidationError.invalidDocumentType ∧
    uploadDocumentFlow "application/pdf" "app-1" "not-a-document-type" "US"
        (Except.ok "https://bucket/doc-1.pdf") 7 "doc-1" (Except.ok ()) =
      (Except.ok { createDocumentObject "app-1" "not-a-document-type" "US" 7 "doc-1" with
          fileURL := "https://bucket/doc-1.pdf" }, [Effect.storeUpdate]) :=
  ⟨rfl, rfl⟩

/-- C4 (amended): a document status update naming a value outside the closed
enumeration is rejected with a validation error before any store mutation;
document-type values are not validated this way. -/
theorem c4_amended_status_rejected_before_write (statusStr : String)
    (e : ValidationError) (keyResult : Except ServiceError String)
    (invalidateResult : Except ServiceError Unit)
    (getResult : Except ServiceError Document)
    (h : (parseDocumentStatus statusStr).2 = some e) :
    updateDocumentController statusStr keyResult invalidateResult getResult =
      (Except.error (ServiceError.validation e), []) := by
  unfold updateDocumentController
  rw [h]

/-- Witness for the amended C4 at the concrete status string `"bogus"`. -/
theorem c4_witness :
    (parseDocumentStatus "bogus").2 = some ValidationError.invalidDocumentStatus ∧
    updateDocumentController "bogus" (Except.ok "key") (Except.ok ())
        (Except.ok sampleDocument) =
      (Except.error (ServiceError.validation ValidationError.invalidDocumentStatus), []) :=
  ⟨rfl, c4_amended_status_rejected_before_write "bogus"
    ValidationError.invalidDocumentStatus (Except.ok "key") (Except.ok ())
    (Except.ok sampleDocument) rfl⟩

/-- C9 counterexample: the applicant assembler stamps `CreatedAt` and
`UpdatedAt` with two separate `time.Now()` calls; with clock reads 0 and 1
the two stamps differ, so `createdAt = updatedAt` fails for applicants. -/
theorem c9_counterexample :
    (createApplicantObject "F" "M" "L" "f@example.com" "555" "basic"
        sampleEncryptedData 0 1 "app-1").createdAt ≠
      (createApplicantObject "F" "M" "L" "f@example.com" "555" "basic"
        sampleEncryptedData 0 1 "app-1").updatedAt := by
  decide

/-- C9 (amended): the document assembler stamps `createdAt = updatedAt` from
its single clock read, initializes status to `DocumentUploaded`, initializes
the soft-delete fields to not-deleted, and takes the freshly generated id;
the applicant assembler does the same except that `createdAt` and `updatedAt`
come from two separate clock reads and need not be equal. -/
theorem c9_amended_assembler_initialization :
    (∀ (applicantID documentType country : String) (now : Nat) (freshId : String),
      (createDocumentObject applicantID documentType country now freshId).createdAt = now ∧
      (createDocumentObject applicantID documentType country now freshId).updatedAt = now ∧
      (createDocumentObject applicantID documentType country now freshId).status =
        DocumentStatus.uploaded ∧
      (createDocumentObject applicantID documentType country now freshId).deleted = false ∧
      (createDocumentObject applicantID documentType country now freshId).deletedAt = none ∧
      (createDocumentObject applicantID documentType country now freshId).deletedBy = none ∧
      (createDocumentObject applicantID documentType country now freshId).documentID = freshId) ∧
    (∀ (firstName middleName lastName email phone level : String) (ed : EncryptedData)
        (t1 t2 : Nat) (freshId : String),
      (createApplicantObject firstName middleName lastName email phone level ed
          t1 t2 freshId).createdAt = t1 ∧
      (createApplicantObject firstName middleName lastName email phone level ed
          t1 t2 freshId).updatedAt = t2 ∧
      (createApplicantObject firstName middleName lastName email phone level ed
          t1 t2 freshId).deleted = false ∧
      (createApplicantObject firstName middleName lastName email phone level ed
          t1 t2 freshId).deletedAt = none ∧
      (createApplicantObject firstName middleName lastName email phone level ed
          t1 t2 freshId).deletedBy = none ∧
      (createApplicantObject firstName middleName lastName email phone level ed
          t1 t2 freshId).applicantID = freshId) :=
  ⟨fun _ _ _ _ _ => ⟨rfl, rfl, rfl, rfl, rfl, rfl, rfl⟩,
   fun _ _ _ _ _ _ _ _ _ _ => ⟨rfl, rfl, rfl, rfl, rfl, rfl⟩⟩

/-- Equality of every document field except `status` and `updatedAt`. -/
def docFrameEq (d d' : Document) : Prop :=
  d'.documentID = d.documentID ∧ d'.applicantID = d.applicantID ∧
    d'.documentType = d.documentType ∧ d'.country = d.country ∧
    d'.fileURL = d.fileURL ∧ d'.fileSize = d.fileSize ∧
    d'.createdAt = d.createdAt ∧ d'.deleted = d.deleted ∧
    d'.deletedAt = d.deletedAt ∧ d'.deletedBy = d.deletedBy

theorem forall2_setStatusFirst (docID : String) (st : DocumentStatus) (t : Nat) :
    ∀ l : List Document,
    List.Forall₂ (fun d d' => docFrameEq d d' ∧ (d.documentID ≠ docID → d' = d))
      l (setStatusFirst docID st t l)
  | [] => List.Forall₂.nil
  | d :: ds => by
    by_cases hd : d.documentID = docID
    · simp only [setStatusFirst, if_pos hd]
      refine List.Forall₂.cons ⟨⟨rfl, rfl, rfl, rfl, rfl, rfl, rfl, rfl, rfl, rfl⟩,
        fun hc => absurd hd hc⟩ ?_
      rw [List.forall₂_same]
      intro x _
      exact ⟨⟨rfl, rfl, rfl, rfl, rfl, rfl, rfl, rfl, rfl, rfl⟩, fun _ => rfl⟩
    · simp only [setStatusFirst, if_neg hd]
      exact List.Forall₂.cons
        ⟨⟨rfl, rfl, rfl, rfl, rfl, rfl, rfl, rfl, rfl, rfl⟩, fun _ => rfl⟩
        (forall2_setStatusFirst docID st t ds)

/-- C8: the scoped positional `$set` of a status update changes only the
matched document's `status` and `updated_at`: every top-level applicant field
is unchanged, every document keeps all fields other than `status` and
`updatedAt`, and every sibling document (any id other than the target) is
completely unchanged. -/
theorem c8_scoped_update_frame (a : Applicant) (applicantID docID : String)
    (st : DocumentStatus) (t : Nat) :
    (applyStatusUpdate a applicantID docID st t).applicantID = a.applicantID ∧
    (applyStatusUpdate a applicantID docID st t).firstName = a.firstName ∧
    (applyStatusUpdate a applicantID docID st t).middleName = a.middleName ∧
    (applyStatusUpdate a applicantID docID st t).lastName = a.lastName ∧
    (applyStatusUpdate a applicantID docID st t).email = a.email ∧
    (applyStatusUpdate a applicantID docID st t).phone = a.phone ∧
    (applyStatusUpdate a applicantID docID st t).clientID = a.clientID ∧
    (applyStatusUpdate a applicantID docID st t).encryptedData = a.encryptedData ∧
    (applyStatusUpdate a applicantID docID st t).createdAt = a.createdAt ∧
    (applyStatusUpdate a applicantID docID st t).updatedAt = a.updatedAt ∧
    (applyStatusUpdate a applicantID docID st t).deleted = a.deleted ∧
    (applyStatusUpdate a applicantID docID st t).deletedAt = a.deletedAt ∧
    (applyStatusUpdate a applicantID docID st t).deletedBy = a.deletedBy ∧
    (applyStatusUpdate a applicantID docID st t).verificationLevel = a.verificationLevel ∧
    List.Forall₂ (fun d d' => docFrameEq d d' ∧ (d.documentID ≠ docID → d' = d))
      a.documents (applyStatusUpdate a applicantID docID st t).documents := by
  unfold applyStatusUpdate
  by_cases hm : docFilterMatch a applicantID docID
  · rw [if_pos hm]
    refine ⟨rfl, rfl, rfl, rfl, rfl, rfl, rfl, rfl, rfl, rfl, rfl, rfl, rfl, rfl, ?_⟩
    exact forall2_setStatusFirst docID st t a.documents
  · rw [if_neg hm]
    refine ⟨rfl, rfl, rfl, rfl, rfl, rfl, rfl, rfl, rfl, rfl, rfl, rfl, rfl, rfl, ?_⟩
    rw [List.forall₂_same]
    intro x _
    exact ⟨⟨rfl, rfl, rfl, rfl, rfl, rfl, rfl, rfl, rfl, rfl⟩, fun _ => rfl⟩

/-- C2: a status update of an existing matched document writes the new status
with a fresh timestamp, invalidates the written key, and the fresh re-read
returns exactly the post-write document: the requested status, and an
`updatedAt` strictly greater than the pre-update one. -/
theorem c2_transition_returns_fresh_state (applicantID docID : String)
    (st : DocumentStatus) (s : SysState) (doc₀ : Document)
    (hwf : WF applicantID s)
    (h : docQuery s.store applicantID docID = some doc₀) :
    (updateDocumentModel applicantID s docID st).2 =
      some { doc₀ with status := st, updatedAt := s.clock } ∧
    doc₀.updatedAt < s.clock := by
  constructor
  · have hcache : (writeStep applicantID s docID st).cache (docKey applicantID docID)
        = none := by
      unfold writeStep
      simp
    have hq : docQuery (writeStep applicantID s docID st).store applicantID docID =
        some { doc₀ with status := st, updatedAt := s.clock } := by
      unfold writeStep
      simp only
      rw [docQuery_applyStatusUpdate_self, h]
      rfl
    unfold updateDocumentModel getStep
    rw [hcache, hq]
  · have hb : doc₀ ∈ s.store.documents := by
      unfold docQuery at h
      by_cases hc : s.store.applicantID = applicantID ∧ s.store.deleted = false
      · rw [if_pos hc] at h
        exact List.mem_of_find?_eq_some h
      · rw [if_neg hc] at h
        exact absurd h (by simp)
    exact hwf.1 doc₀ hb

/-- Witness for C2: updating `sampleDocument` to `Verified` in `sampleState`
returns the verified document stamped with the write's clock value 5. -/
theorem c2_witness :
    (updateDocumentModel "app-1" sampleState "doc-1" DocumentStatus.verified).2 =
      some { sampleDocument with status := DocumentStatus.verified, updatedAt := 5 } ∧
    sampleDocument.updatedAt < 5 :=
  c2_transition_returns_fresh_state "app-1" "doc-1" DocumentStatus.verified
    sampleState sampleDocument
    ⟨fun d hd => by rw [List.mem_singleton.mp hd]; decide, fun _ => Or.inl rfl⟩
    (by decide)

/-- C1 (amended): over any trace of document-path operations, after an
`UpdateDocument` write completes, every subsequent `GetDocument` on a cache
key whose filter matches that record — across any interleaved document-path
operations — returns a projection with `updatedAt` at least the write's
timestamp.  The guarantee does not extend to `UpdateApplicant` writes, which
invalidate only the applicant-level cache key and stamp only the top-level
`updated_at`. -/
theorem c1_no_stale_read_after_document_write (applicantID : String) (s : SysState)
    (pre mid : List DocOp) (docID : String) (st : DocumentStatus) (doc : Document)
    (hwf : WF applicantID s)
    (hget : (getStep applicantID
        (runOps applicantID
          (writeStep applicantID (runOps applicantID s pre) docID st) mid)
        docID).2 = some doc) :
    (runOps applicantID s pre).clock ≤ doc.updatedAt := by
  have hwf1 : WF applicantID (runOps applicantID s pre) :=
    wf_runOps applicantID s pre hwf
  have hwf2 : WF applicantID
      (writeStep applicantID (runOps applicantID s pre) docID st) :=
    ⟨timesLT_writeStep applicantID (runOps applicantID s pre) docID st hwf1.1,
     cacheCoh_writeStep applicantID (runOps applicantID s pre) docID st hwf1.2⟩
  have hfr : FreshSince applicantID docID (runOps applicantID s pre).clock
      (writeStep applicantID (runOps applicantID s pre) docID st) :=
    freshSince_of_writeStep_self applicantID docID (runOps applicantID s pre) st
  have hwf3 : WF applicantID (runOps applicantID
      (writeStep applicantID (runOps applicantID s pre) docID st) mid) :=
    wf_runOps applicantID _ mid hwf2
  have hfr3 : FreshSince applicantID docID (runOps applicantID s pre).clock
      (runOps applicantID
        (writeStep applicantID (runOps applicantID s pre) docID st) mid) :=
    freshSince_runOps applicantID docID (runOps applicantID s pre).clock _ mid hfr
  exact getStep_fresh applicantID docID (runOps applicantID s pre).clock _ doc
    hwf3.2 hfr3 hget

/-- Witness for the amended C1 on a concrete trace: write `Verified` to
`doc-1` in `sampleState`, then read it back. -/
theorem c1_witness :
    (runOps "app-1" sampleState []).clock ≤
      ({ sampleDocument with status := DocumentStatus.verified, updatedAt := 5 }
        : Document).updatedAt :=
  c1_no_stale_read_after_document_write "app-1" sampleState [] [] "doc-1"
    DocumentStatus.verified
    { sampleDocument with status := DocumentStatus.verified, updatedAt := 5 }
    ⟨fun d hd => by rw [List.mem_singleton.mp hd]; decide, fun _ => Or.inl rfl⟩
    (by decide)

/-- C1 counterexample: populate the document cache key by a `GetDocument`,
then complete an `UpdateApplicant` write on the same record at clock 5; the
subsequent `GetDocument` on a cache key whose filter matches that record
returns a projection whose `updatedAt` (0) is below the write's timestamp
(5), falsifying the claim for `UpdateApplicant` writes. -/
theorem c1_counterexample :
    ((updateApplicantModel "app-1" "client-1"
        (getStep "app-1" sampleState "doc-1").1 [FieldUpd.firstName "G"]).2).isSome = true ∧
    docFilterMatch
      (updateApplicantModel "app-1" "client-1"
        (getStep "app-1" sampleState "doc-1").1 [FieldUpd.firstName "G"]).1.store
      "app-1" "doc-1" ∧
    (getStep "app-1"
      (updateApplicantModel "app-1" "client-1"
        (getStep "app-1" sampleState "doc-1").1 [FieldUpd.firstName "G"]).1
      "doc-1").2 = some sampleDocument ∧
    sampleDocument.updatedAt < (getStep "app-1" sampleState "doc-1").1.clock := by
  refine ⟨?_, ?_, ?_, ?_⟩
  · decide
  · decide
  · decide
  · decide
